import Mathlib

/-!
Shallow embedding of the computer-vision pipeline engine
(backend/app/cv: nodes and pipeline executor/manager) together with
proofs of the behavioural properties stated for it.

Conventions of the embedding:
- Python dicts keyed by strings are modelled as insertion-ordered
  association lists (a new key is appended at the end, matching dict
  insertion order); alistLookup / alistSet mirror membership test,
  subscript read and subscript write.
- Wall-clock quantities (timestamps, fps, average processing time,
  uptime) are not modelled: no claim mentions them.  Monotonic counters
  (total_frames_processed, total_detections, errors_count) are modelled
  exactly.
- Python float arithmetic on integer-valued data is modelled over ℤ,
  and genuine divisions (segment-intersection parameters, ray-casting
  abscissa, severity multipliers) over ℚ.
- A value whose only use in the source is a Python truthiness test is
  modelled as an Option, with none for the falsy case.
-/

namespace VisionMark

/-- Association-list lookup: first binding wins, like a dict read
(dicts have unique keys; the executor maps preserve that). -/
def alistLookup {β : Type} : List (String × β) → String → Option β
  | [], _ => none
  | (k', v) :: rest, k => if k' = k then some v else alistLookup rest k

/-- Association-list write: replaces the binding of the key when present,
otherwise appends at the end (dict insertion order). -/
def alistSet {β : Type} : List (String × β) → String → β → List (String × β)
  | [], k, v => [(k, v)]
  | (k', v') :: rest, k, v =>
    if k' = k then (k', v) :: rest else (k', v') :: alistSet rest k v

/-- Key-membership test on an association list (Python `k in d`). -/
def alistContains {β : Type} (l : List (String × β)) (k : String) : Bool :=
  (alistLookup l k).isSome

/-- PipelineStatus enum from executor.py. -/
inductive PipelineStatus where
  | stopped
  | starting
  | running
  | paused
  | stopping
  | error
  deriving DecidableEq, Repr

/-- The information about a node class that the executor consults:
its Python class name (used by the order heuristic through a substring
test) and whether it is an instance of InputNode. -/
structure NodeClass where
  name : String
  isInput : Bool
  deriving DecidableEq, Repr

/-- input_nodes.CameraInputNode, an InputNode subclass. -/
def CameraInputNode : NodeClass := ⟨"CameraInputNode", true⟩

/-- input_nodes.VideoFileInputNode, an InputNode subclass. -/
def VideoFileInputNode : NodeClass := ⟨"VideoFileInputNode", true⟩

/-- processing_nodes.YOLODetectionNode, a ProcessingNode subclass. -/
def YOLODetectionNode : NodeClass := ⟨"YOLODetectionNode", false⟩

/-- processing_nodes.FaceDetectionNode, a ProcessingNode subclass. -/
def FaceDetectionNode : NodeClass := ⟨"FaceDetectionNode", false⟩

/-- processing_nodes.MotionDetectionNode, a ProcessingNode subclass. -/
def MotionDetectionNode : NodeClass := ⟨"MotionDetectionNode", false⟩

/-- analytics_nodes.PeopleCountingNode, an AnalyticsNode subclass. -/
def PeopleCountingNode : NodeClass := ⟨"PeopleCountingNode", false⟩

/-- analytics_nodes.LineCrossingNode, an AnalyticsNode subclass. -/
def LineCrossingNode : NodeClass := ⟨"LineCrossingNode", false⟩

/-- analytics_nodes.AreaIntrusionNode, an AnalyticsNode subclass. -/
def AreaIntrusionNode : NodeClass := ⟨"AreaIntrusionNode", false⟩

/-- nodes/__init__.py NODE_REGISTRY: type identifier to class. -/
def NODE_REGISTRY : List (String × NodeClass) :=
  [("camera_input", CameraInputNode),
   ("webcam_input", CameraInputNode),
   ("video_file_input", VideoFileInputNode),
   ("image_input", VideoFileInputNode),
   ("yolo_detection", YOLODetectionNode),
   ("object_detection", YOLODetectionNode),
   ("face_detection", FaceDetectionNode),
   ("motion_detection", MotionDetectionNode),
   ("people_counting", PeopleCountingNode),
   ("line_crossing", LineCrossingNode),
   ("area_intrusion", AreaIntrusionNode),
   ("zone_monitoring", AreaIntrusionNode)]

/-- nodes/__init__.py create_node: registry lookup, none when the type
is unknown (instantiation itself cannot fail for these classes). -/
def createNode (node_type : String) : Option NodeClass :=
  alistLookup NODE_REGISTRY node_type

/-- base.ProcessingResult.  The payload type is a parameter; data is an
Option whose none stands for a falsy payload (None or an empty dict),
metadata likewise records only whether the metadata dict is truthy,
because those are the only uses the executor makes of them.  The
produced_at timestamp is wall clock and not modelled. -/
structure ProcessingResult (α : Type) where
  success : Bool
  data : Option α := none
  error : Option String := none
  metadata : Bool := false
  deriving DecidableEq, Repr

/-- base.FrameData as far as the claims consult it: the per-source
sequence number (frame_id, from the capture counter) and the source id.
The pixel buffer and the capture timestamp carry no information any
claim mentions. -/
structure FrameData where
  frame_id : Nat
  source_id : String
  deriving DecidableEq, Repr

/-- The state of CameraInputNode threaded through _capture_frames:
the bounded frame queue (front = oldest, as in queue.Queue), its
capacity (buffer_size), the running frame counter and the node id. -/
structure CameraBuffer where
  queue : List FrameData
  maxsize : Nat
  frame_counter : Nat
  node_id : String
  deriving DecidableEq, Repr

/-- The FrameData built by one iteration of _capture_frames. -/
def mkFrame (st : CameraBuffer) : FrameData :=
  { frame_id := st.frame_counter, source_id := st.node_id }

/-- One successful-read iteration of CameraInputNode._capture_frames:
build the FrameData; put_nowait succeeds when the queue is below
capacity and the counter advances; on a full queue the oldest frame is
popped and the new one admitted, with the counter NOT advanced (the
increment sits inside the try block, before the except handler runs).
A full empty queue (capacity zero) hits the except-Empty pass: the new
frame is dropped. -/
def captureStep (st : CameraBuffer) : CameraBuffer :=
  let fd := mkFrame st
  if st.queue.length < st.maxsize then
    { st with queue := st.queue ++ [fd], frame_counter := st.frame_counter + 1 }
  else
    match st.queue with
    | [] => st
    | _ :: rest => { st with queue := rest ++ [fd] }

/-- n iterations of the capture loop. -/
def captureRun : Nat → CameraBuffer → CameraBuffer
  | 0, st => st
  | n + 1, st => captureRun n (captureStep st)

/-- The frames captured (built) by n iterations, oldest first,
including any that the full-queue path later discarded. -/
def captureTrace : Nat → CameraBuffer → List FrameData
  | 0, _ => []
  | n + 1, st => mkFrame st :: captureTrace n (captureStep st)

/-- A freshly constructed CameraInputNode buffer of the given capacity. -/
def freshCameraBuffer (capacity : Nat) (nid : String) : CameraBuffer :=
  { queue := [], maxsize := capacity, frame_counter := 0, node_id := nid }

/-- 2D cross product of two vectors. -/
def cross2 (v w : ℤ × ℤ) : ℤ := v.1 * w.2 - v.2 * w.1

/-- A configured line of LineCrossingNode after initialize(); the source
dict key end is the Lean keyword, rendered here as finish. -/
structure CrossLine where
  id : String
  name : String
  start : ℤ × ℤ
  finish : ℤ × ℤ
  direction : String
  deriving DecidableEq, Repr

/-- A crossing event as built by _check_line_crossing (its wall-clock
timestamp field is not modelled). -/
structure CrossingEvent where
  object_id : String
  line_id : String
  line_name : String
  direction : String
  position : ℤ × ℤ
  deriving DecidableEq, Repr

/-- LineCrossingNode._line_intersection.  Centers are integer pixel
coordinates, so the float test abs(denom) < 1e-10 is exactly denom = 0,
and the parameters t and u are the exact rationals the float code
approximates. -/
def lineIntersection (p1 p2 p3 p4 : ℤ × ℤ) : Bool × String :=
  let x1 := p1.1; let y1 := p1.2
  let x2 := p2.1; let y2 := p2.2
  let x3 := p3.1; let y3 := p3.2
  let x4 := p4.1; let y4 := p4.2
  let denom := (x1 - x2) * (y3 - y4) - (y1 - y2) * (x3 - x4)
  if denom = 0 then (false, "none")
  else
    let t : ℚ := ((x1 - x3) * (y3 - y4) - (y1 - y3) * (x3 - x4) : ℤ) / (denom : ℚ)
    let u : ℚ := -((x1 - x2) * (y1 - y3) - (y1 - y2) * (x1 - x3) : ℤ) / (denom : ℚ)
    if 0 ≤ t ∧ t ≤ 1 ∧ 0 ≤ u ∧ u ≤ 1 then
      let cross_product := (x2 - x1) * (y4 - y3) - (y2 - y1) * (x4 - x3)
      (true, if cross_product > 0 then "forward" else "backward")
    else (false, "none")

/-- LineCrossingNode._check_line_crossing.  The per-node tracking_data
dict maps object ids to their previous_pos (last_seen is wall clock and
not modelled); the function returns the optional crossing event and the
updated tracking state. -/
def checkLineCrossing (tracking : List (String × (ℤ × ℤ))) (objectId : String)
    (currentPos : ℤ × ℤ) (line : CrossLine) :
    Option CrossingEvent × List (String × (ℤ × ℤ)) :=
  match alistLookup tracking objectId with
  | none => (none, alistSet tracking objectId currentPos)
  | some prevPos =>
    let cd := lineIntersection prevPos currentPos line.start line.finish
    if cd.1 ∧ (line.direction = "both" ∨ line.direction = cd.2) then
      (some { object_id := objectId, line_id := line.id, line_name := line.name,
              direction := cd.2, position := currentPos },
       alistSet tracking objectId currentPos)
    else
      (none, alistSet tracking objectId currentPos)

/-- The point at parameter t of the segment from p to q, over ℚ. -/
def segPoint (p q : ℤ × ℤ) (t : ℚ) : ℚ × ℚ :=
  ((p.1 : ℚ) + t * ((q.1 : ℚ) - (p.1 : ℚ)), (p.2 : ℚ) + t * ((q.2 : ℚ) - (p.2 : ℚ)))

/-- Strict (proper, transversal) intersection of segment p1p2 with
segment p3p4: the segments are not parallel and meet at a point interior
to both. -/
def StrictCross (p1 p2 p3 p4 : ℤ × ℤ) : Prop :=
  cross2 (p2 - p1) (p4 - p3) ≠ 0 ∧
  ∃ t u : ℚ, 0 < t ∧ t < 1 ∧ 0 < u ∧ u < 1 ∧ segPoint p1 p2 t = segPoint p3 p4 u

/-- base.Detection as far as the analytics nodes consult it.  The float
confidence is rendered over ℚ; mask, keypoints and metadata play no role
in any claim. -/
structure Detection where
  class_id : ℤ
  class_name : String
  confidence : ℚ
  bbox : ℤ × ℤ × ℤ × ℤ
  deriving DecidableEq, Repr

/-- Center of a bounding box, Python floor division by 2. -/
def getCenterPoint (bbox : ℤ × ℤ × ℤ × ℤ) : ℤ × ℤ :=
  ((bbox.1 + bbox.2.2.1).fdiv 2, (bbox.2.1 + bbox.2.2.2).fdiv 2)

/-- One edge step of AreaIntrusionNode._point_in_polygon.  When the
guards hold, p1y ≠ p2y is forced (y cannot be both above min and at
most max of two equal ordinates), which is why the source computes
xinters only under that test and the stale-variable branch is dead;
the dead branch is rendered as xinters = 0. -/
def rayCastStep (x y : ℤ) (inside : Bool) (edge : (ℤ × ℤ) × (ℤ × ℤ)) : Bool :=
  let p1x := edge.1.1; let p1y := edge.1.2
  let p2x := edge.2.1; let p2y := edge.2.2
  if y > min p1y p2y ∧ y ≤ max p1y p2y ∧ x ≤ max p1x p2x then
    let xinters : ℚ :=
      if p1y ≠ p2y then
        ((y : ℚ) - (p1y : ℚ)) * ((p2x : ℚ) - (p1x : ℚ)) / ((p2y : ℚ) - (p1y : ℚ)) + (p1x : ℚ)
      else 0
    if p1x = p2x ∨ (x : ℚ) ≤ xinters then !inside else inside
  else inside

/-- AreaIntrusionNode._point_in_polygon: ray casting over the polygon
edges (p[0],p[1]), ..., (p[n-1],p[0]).  The source indexes polygon[0]
unconditionally, so an empty polygon is outside the contract; rendered
as false. -/
def pointInPolygon (point : ℤ × ℤ) (polygon : List (ℤ × ℤ)) : Bool :=
  match polygon with
  | [] => false
  | _ :: _ =>
    (polygon.zip (polygon.rotate 1)).foldl (rayCastStep point.1 point.2) false

/-- A configured zone of AreaIntrusionNode after initialize(). -/
structure Zone where
  id : String
  name : String
  polygon : List (ℤ × ℤ)
  allowed_classes : List String
  alert_threshold : ℤ
  sensitivity : String
  deriving DecidableEq, Repr

/-- Whether a detection counts as an intruding object of the zone: its
center lies in the polygon and it is NOT exempt.  In the source a
detection inside the polygon is skipped (continue) when the allow-list
is empty or its class is listed, so exemption is: empty allow-list, or
class in the allow-list. -/
def countsForZone (zone : Zone) (d : Detection) : Bool :=
  pointInPolygon (getCenterPoint d.bbox) zone.polygon &&
    !(zone.allowed_classes.isEmpty || zone.allowed_classes.contains d.class_name)

/-- The objects_in_zone list of one zone for one detections list. -/
def objectsInZone (zone : Zone) (dets : List Detection) : List Detection :=
  dets.filter (countsForZone zone)

/-- The per-call intruder count of a zone. -/
def zoneCount (zone : Zone) (dets : List Detection) : Nat :=
  (objectsInZone zone dets).length

/-- AreaIntrusionNode._calculate_severity. -/
def calculateSeverity (objects_count : Nat) (zone : Zone) : String :=
  let multiplier : ℚ :=
    if zone.sensitivity = "high" then 3 / 2
    else if zone.sensitivity = "low" then 3
    else 2
  if (objects_count : ℚ) ≥ (zone.alert_threshold : ℚ) * multiplier then "critical"
  else if (objects_count : ℚ) ≥ (zone.alert_threshold : ℚ) * (3 / 2 : ℚ) then "high"
  else "medium"

/-- An intrusion event as built by AreaIntrusionNode.process (timestamp
not modelled). -/
structure IntrusionEvent where
  zone_id : String
  zone_name : String
  objects_count : Nat
  objects : List String
  severity : String
  deriving DecidableEq, Repr

/-- The zone loop of AreaIntrusionNode.process for one call: walks the
zones in order, emits an event for a zone meeting its threshold only
when the zone id is not yet in active_intrusions (then records it), and
removes a below-threshold zone id from active_intrusions.  The
active_intrusions dict is modelled by its key list (its values are
wall-clock timestamps). -/
def intrusionStep (dets : List Detection) :
    List Zone → List String → List IntrusionEvent × List String
  | [], active => ([], active)
  | zone :: rest, active =>
    let cnt := zoneCount zone dets
    if (cnt : ℤ) ≥ zone.alert_threshold then
      if zone.id ∈ active then intrusionStep dets rest active
      else
        let ev : IntrusionEvent :=
          { zone_id := zone.id, zone_name := zone.name, objects_count := cnt,
            objects := (objectsInZone zone dets).map Detection.class_name,
            severity := calculateSeverity cnt zone }
        let r := intrusionStep dets rest (active ++ [zone.id])
        (ev :: r.1, r.2)
    else
      intrusionStep dets rest (active.erase zone.id)

/-- A sequence of process() calls on one AreaIntrusionNode: for each
detections list in turn, run the zone loop and thread the
active_intrusions state; yields the new_intrusions list of every call. -/
def intrusionRun (zones : List Zone) :
    List (List Detection) → List String → List (List IntrusionEvent)
  | [], _ => []
  | dets :: rest, active =>
    let r := intrusionStep dets zones active
    r.1 :: intrusionRun zones rest r.2

/-- Does the first list appear as a leading segment of the second? -/
def listStartsWith : List Char → List Char → Bool
  | [], _ => true
  | _ :: _, [] => false
  | c :: cs, d :: ds => c = d && listStartsWith cs ds

/-- Substring containment on character lists (the Python operator
pat in s on strings). -/
def listContainsSub (pat : List Char) : List Char → Bool
  | [] => pat.isEmpty
  | d :: rest => listStartsWith pat (d :: rest) || listContainsSub pat rest

/-- The Python membership test of executor._get_processing_order:
the literal Processing contained in the class name. -/
def nameHasProcessing (name : String) : Bool :=
  listContainsSub "Processing".toList name.toList

/-- A node entry of the pipeline config (position and parameters play no
role in the executor logic modelled here; node parameters reach the
node constructors, whose relevant effects are in the node models). -/
structure NodeCfg where
  node_id : String
  node_type : String
  deriving DecidableEq, Repr

/-- An edge entry of the pipeline config (ports are never consulted). -/
structure EdgeCfg where
  source_node_id : String
  target_node_id : String
  deriving DecidableEq, Repr

/-- The pipeline configuration dict as the executor reads it. -/
structure PipelineConfig where
  nodes : List NodeCfg
  edges : List EdgeCfg
  deriving DecidableEq, Repr

/-- The mutable fields of PipelineExecutor that the modelled operations
touch.  Wall-clock statistics fields (fps, averages, start/last frame
times) are omitted; the three monotonic counters are kept. -/
structure ExecState where
  pipeline_id : String
  config : PipelineConfig
  status : PipelineStatus
  nodes : List (String × NodeClass)
  connections : List EdgeCfg
  total_frames_processed : Nat
  total_detections : Nat
  errors_count : Nat
  error_message : Option String
  stop_event : Bool
  pause_event : Bool
  deriving DecidableEq, Repr

/-- PipelineExecutor.__init__ for a given id and config. -/
def mkExecutor (pid : String) (cfg : PipelineConfig) : ExecState :=
  { pipeline_id := pid, config := cfg, status := .stopped, nodes := [],
    connections := [], total_frames_processed := 0, total_detections := 0,
    errors_count := 0, error_message := none, stop_event := false,
    pause_event := false }

/-- Environment for node construction: whether each configured node
initializes successfully (cameras, model files and similar external
resources decide this) and the node error message reported on failure. -/
structure NodeEnv where
  initOk : NodeCfg → Bool
  initMsg : NodeCfg → String

/-- The node-creation loop of PipelineExecutor.initialize: create each
configured node through the factory and initialize it, accumulating
them in self.nodes; the first failure stops the loop with the
corresponding error message. -/
def initNodesGo (env : NodeEnv) : List NodeCfg → ExecState → ExecState × Bool
  | [], e => (e, true)
  | nc :: rest, e =>
    match createNode nc.node_type with
    | none =>
      let msg := "Falha ao criar nó " ++ nc.node_type ++ " (ID: " ++ nc.node_id ++ ")"
      ({ e with error_message := some msg }, false)
    | some cls =>
      if env.initOk nc then
        initNodesGo env rest { e with nodes := e.nodes ++ [(nc.node_id, cls)] }
      else
        let msg := "Falha ao inicializar nó " ++ nc.node_id ++ ": " ++ env.initMsg nc
        ({ e with error_message := some msg }, false)

/-- The connection check of PipelineExecutor._validate_pipeline: the
first edge with an unknown endpoint yields the error message (source
checked before target). -/
def validateConnections (nodes : List (String × NodeClass)) :
    List EdgeCfg → Option String
  | [] => none
  | c :: rest =>
    if !alistContains nodes c.source_node_id then
      some ("Nó fonte não encontrado: " ++ c.source_node_id)
    else if !alistContains nodes c.target_node_id then
      some ("Nó destino não encontrado: " ++ c.target_node_id)
    else validateConnections nodes rest

/-- PipelineExecutor._validate_pipeline: at least one Input node, then
all edges must reference known nodes. -/
def validatePipeline (e : ExecState) : ExecState × Bool :=
  if (e.nodes.filter (fun p => p.2.isInput)).isEmpty then
    ({ e with error_message := some "Pipeline deve ter pelo menos um nó de entrada" }, false)
  else
    match validateConnections e.nodes e.connections with
    | some msg => ({ e with error_message := some msg }, false)
    | none => (e, true)

/-- PipelineExecutor.initialize: enter Starting, create and initialize
every configured node, record the edges, validate; any failure leaves
the executor in Error with the failure message. -/
def initPipeline (env : NodeEnv) (e : ExecState) : ExecState × Bool :=
  let e1 := { e with status := .starting }
  match initNodesGo env e1.config.nodes e1 with
  | (e2, false) => ({ e2 with status := .error }, false)
  | (e2, true) =>
    let e3 := { e2 with connections := e2.config.edges }
    match validatePipeline e3 with
    | (e4, false) => ({ e4 with status := .error }, false)
    | (e4, true) => (e4, true)

/-- PipelineExecutor.start.  Running returns True at once; initialize()
is invoked ONLY when the status is neither Stopped nor Paused (the
guard as written in the source); then the events are cleared, input
streams and the loop thread are started and the status becomes Running. -/
def startPipeline (env : NodeEnv) (e : ExecState) : ExecState × Bool :=
  if e.status = .running then (e, true)
  else
    let r :=
      if e.status ≠ .stopped ∧ e.status ≠ .paused then initPipeline env e
      else (e, true)
    if r.2 then
      ({ r.1 with stop_event := false, pause_event := false, status := .running }, true)
    else (r.1, false)

/-- PipelineExecutor.stop: a no-op when already Stopped, otherwise
(transiently Stopping, which a caller of the synchronous method never
observes) sets the stop event, stops input streams, joins the loop and
lands in Stopped. -/
def stopExecutor (e : ExecState) : ExecState :=
  if e.status = .stopped then e
  else { e with status := .stopped, stop_event := true }

/-- PipelineExecutor.pause: gates the loop and moves to Paused, only
from Running. -/
def pauseExecutor (e : ExecState) : ExecState :=
  if e.status = .running then { e with pause_event := true, status := .paused }
  else e

/-- PipelineExecutor.resume: clears the gate, only from Paused. -/
def resumeExecutor (e : ExecState) : ExecState :=
  if e.status = .paused then { e with pause_event := false, status := .running }
  else e

/-- The accumulator of executor._get_processing_order: one pass over the
node map splits ids into input nodes (isinstance InputNode), nodes whose
class NAME contains Processing, and the rest, preserving map order, and
concatenates the three buckets. -/
def processingOrderGo :
    List (String × NodeClass) → List String → List String → List String → List String
  | [], ins, procs, anas => ins ++ procs ++ anas
  | (nid, cls) :: rest, ins, procs, anas =>
    if cls.isInput then processingOrderGo rest (ins ++ [nid]) procs anas
    else if nameHasProcessing cls.name then processingOrderGo rest ins (procs ++ [nid]) anas
    else processingOrderGo rest ins procs (anas ++ [nid])

/-- PipelineExecutor._get_processing_order. -/
def getProcessingOrder (nodes : List (String × NodeClass)) : List String :=
  processingOrderGo nodes [] [] []

/-- PipelineExecutor._get_node_input_data: among the edges targeting the
node, in order, the first whose source id is a key of the available-data
dict wins and its value is returned; the caller then drops a falsy
value.  Both no matching edge and a falsy stored value are none here. -/
def findFirstSource {α : Type} :
    List EdgeCfg → List (String × Option α) → Option α
  | [], _ => none
  | c :: rest, avail =>
    match alistLookup avail c.source_node_id with
    | some v => v
    | none => findFirstSource rest avail

/-- Gathers the input of a node from the per-tick output map. -/
def getNodeInputData {α : Type} (connections : List EdgeCfg) (nodeId : String)
    (avail : List (String × Option α)) : Option α :=
  findFirstSource (connections.filter (fun c => c.target_node_id = nodeId)) avail

/-- The per-tick state threaded by _process_node_chain: the executor
fields, the shared node_outputs map, the log of invoked nodes with the
success of their ProcessingResult, and the node ids forwarded to the
analytics callback. -/
structure ChainState (α : Type) where
  exec : ExecState
  outputs : List (String × Option α)
  invoked : List (String × Bool)
  analyticsEvents : List String

/-- One loop body of _process_node_chain for one id of the processing
order: skip unknown ids and Input nodes; gather the input and skip when
falsy; otherwise invoke process() (modelled by procOf).  On success the
data is merged into node_outputs, detections are counted (detCount
models len of the detections list of a dict payload, zero otherwise)
and truthy metadata is forwarded to the analytics callback; on failure
the error counter is incremented and the tick continues. -/
def chainStep {α : Type} (procOf : String → α → ProcessingResult α)
    (detCount : α → Nat) (cs : ChainState α) (nodeId : String) : ChainState α :=
  match alistLookup cs.exec.nodes nodeId with
  | none => cs
  | some cls =>
    if cls.isInput then cs
    else
      match getNodeInputData cs.exec.connections nodeId cs.outputs with
      | none => cs
      | some d =>
        let result := procOf nodeId d
        if result.success then
          { cs with
            outputs := alistSet cs.outputs nodeId result.data,
            exec := { cs.exec with total_detections :=
              cs.exec.total_detections +
                (match result.data with | some v => detCount v | none => 0) },
            invoked := cs.invoked ++ [(nodeId, true)],
            analyticsEvents :=
              cs.analyticsEvents ++ (if result.metadata then [nodeId] else []) }
        else
          { cs with
            exec := { cs.exec with errors_count := cs.exec.errors_count + 1 },
            invoked := cs.invoked ++ [(nodeId, false)] }

/-- The loop of _process_node_chain over the processing order. -/
def chainRun {α : Type} (procOf : String → α → ProcessingResult α)
    (detCount : α → Nat) : List String → ChainState α → ChainState α
  | [], cs => cs
  | nid :: rest, cs => chainRun procOf detCount rest (chainStep procOf detCount cs nid)

/-- PipelineExecutor._process_node_chain: node_outputs starts as a copy
of the input data and the nodes are visited in processing order. -/
def processNodeChain {α : Type} (procOf : String → α → ProcessingResult α)
    (detCount : α → Nat) (e : ExecState) (inputData : List (String × Option α)) :
    ChainState α :=
  chainRun procOf detCount (getProcessingOrder e.nodes)
    { exec := e, outputs := inputData, invoked := [], analyticsEvents := [] }

/-- The input-polling prologue of _process_frame: each Input node is
polled (frameOf models get_next_frame for this tick) and only truthy
frames enter the input map. -/
def collectInputData {α : Type} (frameOf : String → Option α)
    (nodes : List (String × NodeClass)) : List (String × Option α) :=
  nodes.filterMap (fun p =>
    if p.2.isInput then (frameOf p.1).map (fun f => (p.1, some f)) else none)

/-- PipelineExecutor._process_frame: with no input data the tick is
abandoned before the chain; otherwise the chain runs and the frame
callback fires (node_outputs is nonempty, hence truthy).  Returns the
new executor fields, the invocation log and whether the frame callback
fired. -/
def processFrame {α : Type} (frameOf : String → Option α)
    (procOf : String → α → ProcessingResult α) (detCount : α → Nat)
    (e : ExecState) : ExecState × List (String × Bool) × Bool :=
  let inputData := collectInputData frameOf e.nodes
  if inputData.isEmpty then (e, [], false)
  else
    let cs := processNodeChain procOf detCount e inputData
    (cs.exec, cs.invoked, true)

/-- One iteration of PipelineExecutor._execution_loop: a paused
iteration only sleeps; otherwise _process_frame runs and the statistics
update increments total_frames_processed unconditionally (the wall-clock
averages it also updates are not modelled). -/
def loopIteration {α : Type} (frameOf : String → Option α)
    (procOf : String → α → ProcessingResult α) (detCount : α → Nat)
    (e : ExecState) : ExecState × List (String × Bool) × Bool :=
  if e.pause_event then (e, [], false)
  else
    let r := processFrame frameOf procOf detCount e
    ({ r.1 with total_frames_processed := r.1.total_frames_processed + 1 },
     r.2.1, r.2.2)

/-- The execution loop over a finite schedule of tick environments (the
frames each Input node would deliver at each iteration), honouring the
stop event exactly as the while condition does. -/
def runLoop {α : Type} (procOf : String → α → ProcessingResult α)
    (detCount : α → Nat) :
    List (String → Option α) → ExecState → ExecState × List (List (String × Bool))
  | [], e => (e, [])
  | f :: rest, e =>
    if e.stop_event then (e, [])
    else
      let r := loopIteration f procOf detCount e
      let r2 := runLoop procOf detCount rest r.1
      (r2.1, r.2.1 :: r2.2)

/-- CameraInputNode.process: input nodes never process external data;
the result is this failure regardless of input or initialization. -/
def cameraProcess {α β : Type} (_input_data : α) : ProcessingResult β :=
  { success := false, error := some "Nós de entrada não processam dados" }

/-- YOLODetectionNode.process: the guard rejects an uninitialized node
or an input that is not a FrameData instance (the input is an Option
whose none stands for a non-FrameData value); past the guard the
inference body runs, modelled by the environment function infer. -/
def yoloProcess {φ β : Type} (is_initialized : Bool)
    (infer : φ → ProcessingResult β) (input_data : Option φ) : ProcessingResult β :=
  match input_data, is_initialized with
  | some frame, true => infer frame
  | _, _ =>
    { success := false, error := some "Nó não inicializado ou dados inválidos" }

/-- PeopleCountingNode.process: the guard rejects an uninitialized node;
past the guard the counting body runs, modelled by the environment
function body. -/
def peopleCountingProcess {φ β : Type} (is_initialized : Bool)
    (body : φ → ProcessingResult β) (input_data : φ) : ProcessingResult β :=
  if is_initialized then body input_data
  else { success := false, error := some "Nó não inicializado" }

/-- The manager registry (PipelineManager.pipelines). -/
structure ManagerState where
  pipelines : List (String × ExecState)
  deriving DecidableEq, Repr

/-- PipelineManager.create_pipeline: an existing id is refused before
any executor is constructed; otherwise a fresh executor is registered
(callback wiring carries no modelled state). -/
def createPipelineM (m : ManagerState) (pid : String) (cfg : PipelineConfig) :
    ManagerState × Bool :=
  if alistContains m.pipelines pid then (m, false)
  else ({ pipelines := m.pipelines ++ [(pid, mkExecutor pid cfg)] }, true)

/-- PipelineManager.stop_pipeline: unknown ids report failure; otherwise
the executor is stopped and the call reports success. -/
def stopPipelineM (m : ManagerState) (pid : String) : ManagerState × Bool :=
  match alistLookup m.pipelines pid with
  | none => (m, false)
  | some e => ({ pipelines := alistSet m.pipelines pid (stopExecutor e) }, true)

/-- PipelineManager.pause_pipeline: unknown ids report failure;
otherwise the executor is paused and the call reports success. -/
def pausePipelineM (m : ManagerState) (pid : String) : ManagerState × Bool :=
  match alistLookup m.pipelines pid with
  | none => (m, false)
  | some e => ({ pipelines := alistSet m.pipelines pid (pauseExecutor e) }, true)

/-- Fixture: a config whose only node is a detector, hence no Input node. -/
def cfgNoInput : PipelineConfig := ⟨[⟨"det", "yolo_detection"⟩], []⟩

/-- Fixture: an environment where every node initializes successfully. -/
def trueEnv : NodeEnv := ⟨fun _ => true, fun _ => ""⟩

/-- Fixture: a camera, a failing detector and a working detector. -/
def nodesEx : List (String × NodeClass) :=
  [("cam", CameraInputNode), ("bad", YOLODetectionNode), ("good", FaceDetectionNode)]

/-- Fixture: both detectors read the camera. -/
def connsEx : List EdgeCfg := [⟨"cam", "bad"⟩, ⟨"cam", "good"⟩]

/-- Fixture: a running executor over nodesEx and connsEx. -/
def execEx : ExecState :=
  { mkExecutor "p" ⟨[], []⟩ with
      status := .running
      nodes := nodesEx
      connections := connsEx }

/-- Fixture: node behaviour where bad always fails and everything else
succeeds. -/
def procEx : String → Nat → ProcessingResult Nat := fun nid d =>
  if nid = "bad" then { success := false, error := some "x" }
  else { success := true, data := some (d + 1), metadata := true }

/-- Fixture: trivial detections counter. -/
def detTriv : Nat → Nat := fun _ => 0

/-- Fixture: a tick in which no Input node delivers a frame. -/
def noFrames : String → Option Nat := fun _ => none

/-- Fixture: a square zone that allows only cars, threshold one. -/
def zoneEx : Zone :=
  ⟨"z1", "Zona 1", [(0, 0), (10, 0), (10, 10), (0, 10)], ["car"], 1, "medium"⟩

/-- Fixture: a person detected inside zoneEx. -/
def personInZone : Detection := ⟨0, "person", 1, (4, 4, 6, 6)⟩

/-- Fixture: a registry holding one stopped pipeline. -/
def mgrEx : ManagerState := ⟨[("p1", mkExecutor "p1" cfgNoInput)]⟩

/-- Proof abbreviation: the camera buffer state after k captures while
still below capacity (queue holds frames 0..k-1, counter at k). -/
def camState (N k : Nat) (nid : String) : CameraBuffer :=
  { queue := (List.range k).map (fun idx => ⟨idx, nid⟩), maxsize := N,
    frame_counter := k, node_id := nid }

/-- Writing back the value a key already holds leaves the list as it was. -/
theorem alistSet_of_lookup {β : Type} (l : List (String × β)) (k : String) (v : β)
    (h : alistLookup l k = some v) : alistSet l k v = l := by
  induction l with
  | nil => simp [alistLookup] at h
  | cons p rest ih =>
    obtain ⟨k', v'⟩ := p
    by_cases hk : k' = k
    · subst hk
      simp [alistLookup] at h
      simp [alistSet, h]
    · simp [alistLookup, hk] at h
      simp [alistSet, hk, ih h]

/-- Claim C10: creating a pipeline under an id already present in the
manager registry returns false with the registry untouched: the
existing executor is neither replaced nor mutated and no new executor
is registered. -/
theorem create_pipeline_existing_id_noop (m : ManagerState) (pid : String)
    (cfg : PipelineConfig) (h : alistContains m.pipelines pid = true) :
    createPipelineM m pid cfg = (m, false) := by
  simp [createPipelineM, h]

/-- Witness for C10 at a concrete registry. -/
theorem create_pipeline_existing_id_noop_witness :
    alistContains mgrEx.pipelines "p1" = true ∧
    createPipelineM mgrEx "p1" cfgNoInput = (mgrEx, false) :=
  ⟨rfl, create_pipeline_existing_id_noop mgrEx "p1" cfgNoInput rfl⟩

/-- Claim C8: stop on an already Stopped pipeline is a no-op that leaves
the executor (status, nodes, statistics) unchanged and reports success
at the manager boundary, and pause on a non-Running pipeline leaves the
executor unchanged (also reporting success at the manager, which only
checks that the id exists). -/
theorem stop_pause_idempotent :
    (∀ e : ExecState, e.status = .stopped → stopExecutor e = e) ∧
    (∀ e : ExecState, e.status ≠ .running → pauseExecutor e = e) ∧
    (∀ (m : ManagerState) (pid : String) (e : ExecState),
      alistLookup m.pipelines pid = some e → e.status = .stopped →
      stopPipelineM m pid = (m, true)) ∧
    (∀ (m : ManagerState) (pid : String) (e : ExecState),
      alistLookup m.pipelines pid = some e → e.status ≠ .running →
      pausePipelineM m pid = (m, true)) := by
  have hstop : ∀ e : ExecState, e.status = .stopped → stopExecutor e = e := by
    intro e he
    simp [stopExecutor, he]
  have hpause : ∀ e : ExecState, e.status ≠ .running → pauseExecutor e = e := by
    intro e he
    simp [pauseExecutor, he]
  refine ⟨hstop, hpause, ?_, ?_⟩
  · intro m pid e hl he
    simp [stopPipelineM, hl, hstop e he, alistSet_of_lookup _ _ _ hl]
  · intro m pid e hl he
    simp [pausePipelineM, hl, hpause e he, alistSet_of_lookup _ _ _ hl]

/-- Witness for C8 at a concrete registry whose pipeline is Stopped. -/
theorem stop_pause_idempotent_witness :
    stopExecutor (mkExecutor "p1" cfgNoInput) = mkExecutor "p1" cfgNoInput ∧
    pauseExecutor (mkExecutor "p1" cfgNoInput) = mkExecutor "p1" cfgNoInput ∧
    stopPipelineM mgrEx "p1" = (mgrEx, true) ∧
    pausePipelineM mgrEx "p1" = (mgrEx, true) :=
  ⟨stop_pause_idempotent.1 _ rfl,
   stop_pause_idempotent.2.1 _ (by decide),
   stop_pause_idempotent.2.2.1 mgrEx "p1" _ rfl rfl,
   stop_pause_idempotent.2.2.2 mgrEx "p1" _ rfl (by decide)⟩

/-- Claim C9: for each node variant, process on a node whose
initialization has not completed successfully returns a failure
ProcessingResult with a fixed deterministic error message; the guard
returns before any model state is touched, so the embedded functions
are total and no exception path exists. -/
theorem process_uninitialized_deterministic_failure :
    (∀ (α β : Type) (x : α),
      (cameraProcess x : ProcessingResult β) =
        { success := false, error := some "Nós de entrada não processam dados" }) ∧
    (∀ (φ β : Type) (infer : φ → ProcessingResult β) (inp : Option φ),
      yoloProcess false infer inp =
        { success := false, error := some "Nó não inicializado ou dados inválidos" }) ∧
    (∀ (φ β : Type) (body : φ → ProcessingResult β) (inp : φ),
      peopleCountingProcess false body inp =
        { success := false, error := some "Nó não inicializado" }) := by
  refine ⟨fun α β x => rfl, fun φ β infer inp => ?_, fun φ β body inp => rfl⟩
  cases inp <;> rfl

/-- Claim C1 (divergence witness): on a freshly created executor, whose
status is Stopped, start() skips the initialize-and-validate branch
entirely (the guard inverts the intended condition), so a configuration
without any Input node reaches Running and start returns True with no
error recorded.  The second conjunct shows the intended behaviour is
implemented and reachable only through initialize(): called directly it
does detect the missing Input node, records the descriptive message and
lands in Error. -/
theorem start_reaches_running_without_input_node :
    (∀ env : NodeEnv,
      startPipeline env (mkExecutor "p1" cfgNoInput) =
        ({ mkExecutor "p1" cfgNoInput with status := .running }, true)) ∧
    initPipeline trueEnv (mkExecutor "p1" cfgNoInput) =
      ({ mkExecutor "p1" cfgNoInput with
          status := .error,
          nodes := [("det", YOLODetectionNode)],
          error_message := some "Pipeline deve ter pelo menos um nó de entrada" },
       false) :=
  ⟨fun _ => rfl, rfl⟩

/-- Claim C7 (divergence witness): the middle tier of the processing
order is selected by the substring Processing in the class NAME, which
holds for no concrete processing class (they are named DetectionNode
variants), so a detector configured after an analytics node is ordered
after it, not before it as the tiered order requires. -/
theorem processing_order_ignores_detector_class_names :
    getProcessingOrder
        [("cam", CameraInputNode), ("count", PeopleCountingNode),
         ("yolo", YOLODetectionNode)] =
      ["cam", "count", "yolo"] ∧
    getProcessingOrder
        [("cam", CameraInputNode), ("count", PeopleCountingNode),
         ("yolo", YOLODetectionNode)] ≠
      ["cam", "yolo", "count"] ∧
    nameHasProcessing YOLODetectionNode.name = false ∧
    nameHasProcessing FaceDetectionNode.name = false ∧
    nameHasProcessing MotionDetectionNode.name = false := by
  refine ⟨rfl, ?_, rfl, rfl, rfl⟩
  decide

/-- Claim C6 (counterexample): an iteration in which no Input node
yields a frame invokes no process() call, yet total_frames_processed is
still incremented, contradicting the claim that the counter is not
incremented on a skipped tick. -/
theorem loop_counts_skipped_tick :
    (loopIteration noFrames procEx detTriv execEx).2.1 = [] ∧
    ¬ ((loopIteration noFrames procEx detTriv execEx).1.total_frames_processed =
        execEx.total_frames_processed) := by
  exact ⟨rfl, by decide⟩

/-- Unrolling the capture loop from the far end. -/
theorem captureRun_succ (n : Nat) (st : CameraBuffer) :
    captureRun (n + 1) st = captureStep (captureRun n st) := by
  induction n generalizing st with
  | zero => rfl
  | succ n ih => exact ih (captureStep st)

/-- Unrolling the capture trace from the far end. -/
theorem captureTrace_succ (n : Nat) (st : CameraBuffer) :
    captureTrace (n + 1) st = captureTrace n st ++ [mkFrame (captureRun n st)] := by
  induction n generalizing st with
  | zero => rfl
  | succ n ih =>
    show mkFrame st :: captureTrace (n + 1) (captureStep st) = _
    rw [ih (captureStep st)]
    rfl

/-- While below capacity every capture appends and advances the counter. -/
theorem captureRun_eq_camState (N k : Nat) (nid : String) (hk : k ≤ N) :
    captureRun k (freshCameraBuffer N nid) = camState N k nid := by
  induction k with
  | zero => rfl
  | succ k ih =>
    rw [captureRun_succ, ih (Nat.le_of_succ_le hk)]
    have hlt : k < N := hk
    simp only [captureStep, camState, mkFrame, List.length_map, List.length_range,
      if_pos hlt]
    simp [List.range_succ]

/-- The ids of the first k captured frames are 0..k-1 whenever at most
one capture beyond capacity has happened. -/
theorem captureTrace_eq (N k : Nat) (nid : String) (hk : k ≤ N + 1) :
    captureTrace k (freshCameraBuffer N nid) =
      (List.range k).map (fun idx => (⟨idx, nid⟩ : FrameData)) := by
  induction k with
  | zero => rfl
  | succ k ih =>
    rw [captureTrace_succ, ih (Nat.le_of_succ_le hk),
      captureRun_eq_camState N k nid (Nat.lt_succ_iff.mp hk)]
    simp [camState, mkFrame, List.range_succ]

/-- Mapping the sequence numbers back out of constructed frames. -/
theorem map_frameId_mk (nid : String) (l : List Nat) :
    (l.map (fun idx => (⟨idx, nid⟩ : FrameData))).map FrameData.frame_id = l := by
  induction l with
  | nil => rfl
  | cons a t ih => simp [ih]

/-- Claim C5: after N+1 captures into a buffer of capacity N, the queue
holds exactly the N most recently captured frames (the trace without
its oldest element), the captured frames carry the strictly increasing
sequence numbers 0..N (so the retained frames are identifiable), and
all of them carry the source id of the node. -/
theorem input_buffer_drop_oldest (N : Nat) (nid : String) (hN : 1 ≤ N) :
    (captureRun (N + 1) (freshCameraBuffer N nid)).queue =
      (captureTrace (N + 1) (freshCameraBuffer N nid)).drop 1 ∧
    (captureTrace (N + 1) (freshCameraBuffer N nid)).map FrameData.frame_id =
      List.range (N + 1) ∧
    ((captureTrace (N + 1) (freshCameraBuffer N nid)).map
        FrameData.frame_id).Pairwise (· < ·) ∧
    ∀ fd ∈ captureTrace (N + 1) (freshCameraBuffer N nid), fd.source_id = nid := by
  obtain ⟨m, rfl⟩ : ∃ m, N = m + 1 := ⟨N - 1, by omega⟩
  have htr := captureTrace_eq (m + 1) (m + 2) nid (by omega)
  have hrun : captureRun (m + 2) (freshCameraBuffer (m + 1) nid) =
      captureStep (camState (m + 1) (m + 1) nid) := by
    rw [captureRun_succ, captureRun_eq_camState (m + 1) (m + 1) nid le_rfl]
  refine ⟨?_, ?_, ?_, ?_⟩
  · rw [hrun, htr]
    have hq : camState (m + 1) (m + 1) nid =
        { queue := (⟨0, nid⟩ : FrameData) ::
            (List.range m).map (fun i => (⟨i + 1, nid⟩ : FrameData)),
          maxsize := m + 1, frame_counter := m + 1, node_id := nid } := by
      simp [camState, List.range_succ_eq_map, List.map_map, Function.comp,
        Nat.succ_eq_add_one]
    rw [hq]
    simp only [captureStep, mkFrame, List.length_cons, List.length_map,
      List.length_range, Nat.lt_irrefl, if_false]
    rw [List.range_succ_eq_map, List.range_succ]
    simp [List.map_map, Function.comp, Nat.succ_eq_add_one]
  · rw [htr, map_frameId_mk]
  · rw [htr, map_frameId_mk]
    exact List.pairwise_lt_range _
  · intro fd hfd
    rw [htr] at hfd
    simp only [List.mem_map, List.mem_range] at hfd
    obtain ⟨idx, _, rfl⟩ := hfd
    rfl

/-- Witness for C5 at capacity three. -/
theorem input_buffer_drop_oldest_witness :
    1 ≤ 3 ∧
    ((captureRun 4 (freshCameraBuffer 3 "cam")).queue =
        (captureTrace 4 (freshCameraBuffer 3 "cam")).drop 1 ∧
      (captureTrace 4 (freshCameraBuffer 3 "cam")).map FrameData.frame_id =
        List.range 4 ∧
      ((captureTrace 4 (freshCameraBuffer 3 "cam")).map
          FrameData.frame_id).Pairwise (· < ·) ∧
      ∀ fd ∈ captureTrace 4 (freshCameraBuffer 3 "cam"), fd.source_id = "cam") :=
  ⟨by decide, input_buffer_drop_oldest 3 "cam" (by decide)⟩

/-- Reading back the key just written into an association list. -/
theorem alistLookup_set_self {β : Type} (l : List (String × β)) (k : String) (v : β) :
    alistLookup (alistSet l k v) k = some v := by
  induction l with
  | nil => simp [alistSet, alistLookup]
  | cons p rest ih =>
    obtain ⟨k', v'⟩ := p
    by_cases hk : k' = k
    · simp [alistSet, alistLookup, hk]
    · simp [alistSet, alistLookup, hk, ih]

/-- Antisymmetry of the 2D cross product. -/
theorem cross2_skew (v w : ℤ × ℤ) : cross2 v w = -cross2 w v := by
  simp only [cross2]
  ring

/-- A degenerate movement segment never intersects: its denominator is
zero, the parallel branch. -/
theorem lineIntersection_degenerate (p q r : ℤ × ℤ) :
    lineIntersection p p q r = (false, "none") := by
  simp [lineIntersection]

/-- The test of _line_intersection accepts every strict intersection and
reports the direction by the sign of the cross product of the movement
vector with the line vector (which also equals its denominator). -/
theorem lineIntersection_of_strictCross (p1 p2 p3 p4 : ℤ × ℤ)
    (h : StrictCross p1 p2 p3 p4) :
    lineIntersection p1 p2 p3 p4 =
      (true, if 0 < cross2 (p2 - p1) (p4 - p3) then "forward" else "backward") := by
  obtain ⟨hC, t, u, ht0, ht1, hu0, hu1, heq⟩ := h
  obtain ⟨x1, y1⟩ := p1
  obtain ⟨x2, y2⟩ := p2
  obtain ⟨x3, y3⟩ := p3
  obtain ⟨x4, y4⟩ := p4
  simp only [Prod.mk_sub_mk, cross2] at hC ⊢
  simp only [segPoint, Prod.mk.injEq] at heq
  obtain ⟨e1, e2⟩ := heq
  have hd0 : ¬ ((x1 - x2) * (y3 - y4) - (y1 - y2) * (x3 - x4) = 0) := by
    intro h0
    apply hC
    linarith [h0]
  have hdq : (((x1 - x2) * (y3 - y4) - (y1 - y2) * (x3 - x4) : ℤ) : ℚ) ≠ 0 := by
    exact_mod_cast hd0
  have hts : (((x1 - x3) * (y3 - y4) - (y1 - y3) * (x3 - x4) : ℤ) : ℚ) /
      (((x1 - x2) * (y3 - y4) - (y1 - y2) * (x3 - x4) : ℤ) : ℚ) = t := by
    rw [div_eq_iff hdq]
    push_cast
    linear_combination ((y3 : ℚ) - y4) * e1 - ((x3 : ℚ) - x4) * e2
  have hus : -(((x1 - x2) * (y1 - y3) - (y1 - y2) * (x1 - x3) : ℤ) : ℚ) /
      (((x1 - x2) * (y3 - y4) - (y1 - y2) * (x3 - x4) : ℤ) : ℚ) = u := by
    rw [div_eq_iff hdq]
    push_cast
    linear_combination ((y1 : ℚ) - y2) * e1 - ((x1 : ℚ) - x2) * e2
  simp only [lineIntersection, if_neg hd0, hts, hus]
  rw [if_pos ⟨le_of_lt ht0, le_of_lt ht1, le_of_lt hu0, le_of_lt hu1⟩]

/-- Direction labels are distinct strings. -/
theorem forward_ne_backward : ("forward" : String) ≠ "backward" := by decide

/-- Direction labels are distinct strings, other orientation. -/
theorem backward_ne_forward : ("backward" : String) ≠ "forward" := by decide

/-- Claim C3: a tracked object whose movement segment strictly
intersects a bidirectional line produces exactly one crossing event:
the call emits one event (never zero), its direction is the one
determined by the sign of the cross product (forward exactly when the
cross product of the line vector with the movement vector is negative,
equivalently the movement-cross-line product is positive), and the
state update makes an immediate replay of the same position emit
nothing (never two events for one intersection). -/
theorem line_crossing_unique_event
    (tracking : List (String × (ℤ × ℤ))) (objectId : String)
    (prevPos currentPos : ℤ × ℤ) (line : CrossLine)
    (htrack : alistLookup tracking objectId = some prevPos)
    (hboth : line.direction = "both")
    (hx : StrictCross prevPos currentPos line.start line.finish) :
    (∃ ev : CrossingEvent,
      (checkLineCrossing tracking objectId currentPos line).1 = some ev ∧
      ev.object_id = objectId ∧ ev.line_id = line.id ∧ ev.position = currentPos ∧
      (ev.direction = "forward" ↔
        0 < cross2 (currentPos - prevPos) (line.finish - line.start)) ∧
      (ev.direction = "backward" ↔
        cross2 (currentPos - prevPos) (line.finish - line.start) < 0) ∧
      (ev.direction = "forward" ↔
        cross2 (line.finish - line.start) (currentPos - prevPos) < 0)) ∧
    alistLookup (checkLineCrossing tracking objectId currentPos line).2 objectId =
      some currentPos ∧
    (checkLineCrossing (checkLineCrossing tracking objectId currentPos line).2
        objectId currentPos line).1 = none := by
  have hli := lineIntersection_of_strictCross _ _ _ _ hx
  have hCne := hx.1
  have hskew := cross2_skew (line.finish - line.start) (currentPos - prevPos)
  have hupd : (checkLineCrossing tracking objectId currentPos line).2 =
      alistSet tracking objectId currentPos := by
    unfold checkLineCrossing
    rw [htrack]
    simp only [hli, hboth, true_and]
    split <;> rfl
  refine ⟨?_, ?_, ?_⟩
  · unfold checkLineCrossing
    rw [htrack]
    simp only [hli, hboth]
    simp only [true_and, if_pos (Or.inl rfl)]
    by_cases h0 : 0 < cross2 (currentPos - prevPos) (line.finish - line.start)
    · refine ⟨_, rfl, rfl, rfl, rfl, ?_, ?_, ?_⟩
      · rw [if_pos h0]
        exact ⟨fun _ => h0, fun _ => rfl⟩
      · rw [if_pos h0]
        exact ⟨fun hcontr => absurd hcontr forward_ne_backward,
          fun hlt => absurd hlt (by linarith)⟩
      · rw [if_pos h0]
        exact ⟨fun _ => by linarith [hskew], fun _ => rfl⟩
    · have hneg : cross2 (currentPos - prevPos) (line.finish - line.start) < 0 :=
        lt_of_le_of_ne (not_lt.mp h0) hCne
      refine ⟨_, rfl, rfl, rfl, rfl, ?_, ?_, ?_⟩
      · rw [if_neg h0]
        exact ⟨fun hcontr => absurd hcontr backward_ne_forward,
          fun hlt => absurd hlt h0⟩
      · rw [if_neg h0]
        exact ⟨fun _ => hneg, fun _ => rfl⟩
      · rw [if_neg h0]
        exact ⟨fun hcontr => absurd hcontr backward_ne_forward,
          fun _ => absurd (show (0 : ℤ) <
            cross2 (currentPos - prevPos) (line.finish - line.start) by
              linarith [hskew]) h0⟩
  · rw [hupd]
    exact alistLookup_set_self _ _ _
  · rw [hupd]
    unfold checkLineCrossing
    rw [alistLookup_set_self]
    simp [lineIntersection_degenerate]

/-- Witness for C3 at a concrete crossing: previous center at the
origin, current center at two-two, line from zero-two to two-zero. -/
theorem line_crossing_unique_event_witness :
    alistLookup [("obj", ((0, 0) : ℤ × ℤ))] "obj" = some (0, 0) ∧
    (∃ ev : CrossingEvent,
      (checkLineCrossing [("obj", ((0, 0) : ℤ × ℤ))] "obj" (2, 2)
          ⟨"l1", "Linha 1", (0, 2), (2, 0), "both"⟩).1 = some ev ∧
      ev.object_id = "obj" ∧ ev.line_id = "l1" ∧ ev.position = (2, 2) ∧
      (ev.direction = "forward" ↔
        0 < cross2 ((2, 2) - ((0, 0) : ℤ × ℤ)) ((2, 0) - ((0, 2) : ℤ × ℤ))) ∧
      (ev.direction = "backward" ↔
        cross2 ((2, 2) - ((0, 0) : ℤ × ℤ)) ((2, 0) - ((0, 2) : ℤ × ℤ)) < 0) ∧
      (ev.direction = "forward" ↔
        cross2 ((2, 0) - ((0, 2) : ℤ × ℤ)) ((2, 2) - ((0, 0) : ℤ × ℤ)) < 0)) := by
  refine ⟨rfl, ?_⟩
  have h := line_crossing_unique_event [("obj", ((0, 0) : ℤ × ℤ))] "obj" (0, 0) (2, 2)
    ⟨"l1", "Linha 1", (0, 2), (2, 0), "both"⟩ rfl rfl
    ⟨by decide, 1 / 2, 1 / 2, by norm_num, by norm_num, by norm_num, by norm_num,
      by norm_num [segPoint]⟩
  exact h.1

/-- One list of intrusion events per process call. -/
theorem intrusionRun_length (zones : List Zone) (dss : List (List Detection))
    (active : List String) : (intrusionRun zones dss active).length = dss.length := by
  induction dss generalizing active with
  | nil => rfl
  | cons ds rest ih => simp [intrusionRun, ih]

/-- The active_intrusions key list never acquires duplicates (keys are
only appended when absent). -/
theorem intrusionStep_nodup (dets : List Detection) :
    ∀ (zones : List Zone) (active : List String), active.Nodup →
      (intrusionStep dets zones active).2.Nodup := by
  intro zones
  induction zones with
  | nil =>
    intro active ha
    simpa [intrusionStep] using ha
  | cons w rest ih =>
    intro active ha
    by_cases hcnt : (zoneCount w dets : ℤ) ≥ w.alert_threshold
    · by_cases hmem : w.id ∈ active
      · simp only [intrusionStep, if_pos hcnt, if_pos hmem]
        exact ih active ha
      · simp only [intrusionStep, if_pos hcnt, if_neg hmem]
        exact ih (active ++ [w.id]) (by simp [List.nodup_append, ha, hmem])
    · simp only [intrusionStep, if_neg hcnt]
      exact ih (active.erase w.id) (ha.erase _)

/-- Zones other than the observed one neither emit events under its id
nor disturb its membership in active_intrusions. -/
theorem intrusionStep_frame (dets : List Detection) (zid : String) :
    ∀ (zones : List Zone) (active : List String), zid ∉ zones.map Zone.id →
      (((intrusionStep dets zones active).1.filter
          (fun ev => ev.zone_id = zid)).length = 0 ∧
       (zid ∈ (intrusionStep dets zones active).2 ↔ zid ∈ active)) := by
  intro zones
  induction zones with
  | nil =>
    intro active _
    simp [intrusionStep]
  | cons w rest ih =>
    intro active hz
    simp only [List.map_cons, List.mem_cons, not_or] at hz
    obtain ⟨hzw, hzrest⟩ := hz
    by_cases hcnt : (zoneCount w dets : ℤ) ≥ w.alert_threshold
    · by_cases hmem : w.id ∈ active
      · simp only [intrusionStep, if_pos hcnt, if_pos hmem]
        exact ih active hzrest
      · simp only [intrusionStep, if_pos hcnt, if_neg hmem]
        have h2 := ih (active ++ [w.id]) hzrest
        refine ⟨?_, ?_⟩
        · rw [List.filter_cons_of_neg]
          · exact h2.1
          · simp
            exact fun hcontr => absurd hcontr.symm hzw
        · rw [h2.2]
          simp [hzw]
    · simp only [intrusionStep, if_neg hcnt]
      have h2 := ih (active.erase w.id) hzrest
      refine ⟨h2.1, ?_⟩
      rw [h2.2]
      exact List.mem_erase_of_ne hzw

/-- One process call on the zone loop: a zone emits exactly one event
under its id when it meets its threshold while not yet active, else
none, and afterwards its id is active exactly when it met the
threshold on this call. -/
theorem intrusionStep_zone (dets : List Detection) (z : Zone) :
    ∀ (zones : List Zone) (active : List String),
      z ∈ zones → (zones.map Zone.id).Nodup → active.Nodup →
      ((((intrusionStep dets zones active).1.filter
          (fun ev => ev.zone_id = z.id)).length =
        if (zoneCount z dets : ℤ) ≥ z.alert_threshold ∧ z.id ∉ active then 1 else 0) ∧
       (z.id ∈ (intrusionStep dets zones active).2 ↔
        (zoneCount z dets : ℤ) ≥ z.alert_threshold)) := by
  intro zones
  induction zones with
  | nil =>
    intro active hz
    simp at hz
  | cons w rest ih =>
    intro active hz hnd ha
    simp only [List.map_cons, List.nodup_cons] at hnd
    obtain ⟨hwrest, hndrest⟩ := hnd
    rcases List.mem_cons.mp hz with hzw | hzrest
    · subst hzw
      by_cases hcnt : (zoneCount z dets : ℤ) ≥ z.alert_threshold
      · by_cases hmem : z.id ∈ active
        · simp only [intrusionStep, if_pos hcnt, if_pos hmem]
          have hfr := intrusionStep_frame dets z.id rest active hwrest
          refine ⟨?_, ?_⟩
          · rw [hfr.1]
            simp [hcnt, hmem]
          · rw [hfr.2]
            simp [hmem, hcnt]
        · simp only [intrusionStep, if_pos hcnt, if_neg hmem]
          have hfr := intrusionStep_frame dets z.id rest (active ++ [z.id]) hwrest
          refine ⟨?_, ?_⟩
          · rw [List.filter_cons_of_pos]
            · rw [List.length_cons, hfr.1]
              simp [hcnt, hmem]
            · simp
          · rw [hfr.2]
            simp [hcnt]
      · simp only [intrusionStep, if_neg hcnt]
        have hfr := intrusionStep_frame dets z.id rest (active.erase z.id) hwrest
        refine ⟨?_, ?_⟩
        · rw [hfr.1]
          simp [hcnt]
        · rw [hfr.2]
          constructor
          · intro hmem
            exact absurd ((ha.mem_erase_iff.mp hmem).1) (by simp)
          · intro hcontr
            exact absurd hcontr hcnt
    · have hne : w.id ≠ z.id := by
        intro he
        exact hwrest (he ▸ List.mem_map.mpr ⟨z, hzrest, rfl⟩)
      by_cases hcnt : (zoneCount w dets : ℤ) ≥ w.alert_threshold
      · by_cases hmem : w.id ∈ active
        · simp only [intrusionStep, if_pos hcnt, if_pos hmem]
          exact ih active hzrest hndrest ha
        · simp only [intrusionStep, if_pos hcnt, if_neg hmem]
          have h2 := ih (active ++ [w.id]) hzrest hndrest
            (by simp [List.nodup_append, ha, hmem])
          refine ⟨?_, h2.2⟩
          rw [List.filter_cons_of_neg]
          · rw [h2.1]
            have hzw : z.id ≠ w.id := Ne.symm hne
            by_cases hza : z.id ∈ active
            · simp [hza]
            · simp [hza, hzw]
          · simp
            exact hne
      · simp only [intrusionStep, if_neg hcnt]
        have h2 := ih (active.erase w.id) hzrest hndrest (ha.erase _)
        refine ⟨?_, h2.2⟩
        rw [h2.1]
        have hmm : z.id ∈ active.erase w.id ↔ z.id ∈ active :=
          List.mem_erase_of_ne (fun he => hne he.symm)
        by_cases hza : z.id ∈ active
        · simp [hza, hmm]
        · simp [hza, hmm]

/-- Over a sequence of process calls the event count of a zone at call i
is one exactly when the zone meets its threshold at i and either i is
the first call with the zone not initially active, or the previous call
was below threshold. -/
theorem intrusionRun_zone (z : Zone) (zones : List Zone)
    (hz : z ∈ zones) (hnd : (zones.map Zone.id).Nodup) :
    ∀ (dss : List (List Detection)) (active : List String) (i : Nat),
      active.Nodup → i < dss.length →
      (((intrusionRun zones dss active).getD i []).filter
          (fun ev => ev.zone_id = z.id)).length =
        (if (zoneCount z (dss.getD i []) : ℤ) ≥ z.alert_threshold ∧
            (if i = 0 then z.id ∉ active
             else ¬ ((zoneCount z (dss.getD (i - 1) []) : ℤ) ≥ z.alert_threshold))
         then 1 else 0) := by
  intro dss
  induction dss with
  | nil =>
    intro active i _ hi
    simp at hi
  | cons ds rest ih =>
    intro active i ha hi
    match i with
    | 0 =>
      have hstep := intrusionStep_zone ds z zones active hz hnd ha
      simpa [intrusionRun] using hstep.1
    | Nat.succ j =>
      have hstep := intrusionStep_zone ds z zones active hz hnd ha
      have ha' := intrusionStep_nodup ds zones active ha
      have ih' := ih (intrusionStep ds zones active).2 j ha'
        (by simpa using Nat.lt_of_succ_lt_succ hi)
      simp only [intrusionRun, List.getD_cons_succ]
      rw [ih']
      rcases Nat.eq_zero_or_pos j with hj | hj
      · subst hj
        apply if_congr _ rfl rfl
        exact and_congr_right fun _ => not_congr hstep.2
      · obtain ⟨k, rfl⟩ : ∃ k, j = k + 1 := ⟨j - 1, by omega⟩
        rfl

/-- Claim C4: intrusion events for a zone are edge-triggered.  Starting
from an idle node, the per-call event count for the zone equals one
exactly on calls where the non-exempt in-polygon count meets the alert
threshold and either it is the first call or the previous call was
below threshold; hence no event fires while the count stays at or above
threshold, and a new event requires an intervening below-threshold
call. -/
theorem zone_intrusion_edge_triggered (zones : List Zone) (z : Zone)
    (dss : List (List Detection)) (i : Nat)
    (hz : z ∈ zones) (hnd : (zones.map Zone.id).Nodup) (hi : i < dss.length) :
    (((intrusionRun zones dss []).getD i []).filter
        (fun ev => ev.zone_id = z.id)).length =
      (if (zoneCount z (dss.getD i []) : ℤ) ≥ z.alert_threshold ∧
          (i = 0 ∨ ¬ ((zoneCount z (dss.getD (i - 1) []) : ℤ) ≥ z.alert_threshold))
       then 1 else 0) := by
  rw [intrusionRun_zone z zones hz hnd dss [] i List.nodup_nil hi]
  apply if_congr _ rfl rfl
  apply and_congr_right
  intro _
  rcases Nat.eq_zero_or_pos i with h0 | h0
  · subst h0
    simp
  · obtain ⟨k, rfl⟩ : ∃ k, i = k + 1 := ⟨i - 1, by omega⟩
    simp

/-- Witness for C4: person inside on calls 0, 1 and 3, absent on call 2;
the event at call 3 refires because call 2 observed the count below
threshold. -/
theorem zone_intrusion_edge_triggered_witness :
    zoneEx ∈ [zoneEx] ∧
    (((intrusionRun [zoneEx]
          [[personInZone], [personInZone], [], [personInZone]] []).getD 3 []).filter
        (fun ev => ev.zone_id = zoneEx.id)).length =
      (if (zoneCount zoneEx
            (([[personInZone], [personInZone], [], [personInZone]] :
              List (List Detection)).getD 3 []) : ℤ) ≥ zoneEx.alert_threshold ∧
          ((3 : Nat) = 0 ∨ ¬ ((zoneCount zoneEx
            (([[personInZone], [personInZone], [], [personInZone]] :
              List (List Detection)).getD (3 - 1) []) : ℤ) ≥ zoneEx.alert_threshold))
       then 1 else 0) :=
  ⟨by decide,
   zone_intrusion_edge_triggered [zoneEx] zoneEx
     [[personInZone], [personInZone], [], [personInZone]] 3
     (by decide) (by decide) (by decide)⟩

/-- One chain-loop body never touches the status, the control events,
the node map, the edge list or the frame counter. -/
theorem chainStep_fields {α : Type} (procOf : String → α → ProcessingResult α)
    (detCount : α → Nat) (cs : ChainState α) (nodeId : String) :
    (chainStep procOf detCount cs nodeId).exec.status = cs.exec.status ∧
    (chainStep procOf detCount cs nodeId).exec.stop_event = cs.exec.stop_event ∧
    (chainStep procOf detCount cs nodeId).exec.pause_event = cs.exec.pause_event ∧
    (chainStep procOf detCount cs nodeId).exec.nodes = cs.exec.nodes ∧
    (chainStep procOf detCount cs nodeId).exec.connections = cs.exec.connections ∧
    (chainStep procOf detCount cs nodeId).exec.total_frames_processed =
      cs.exec.total_frames_processed := by
  unfold chainStep
  dsimp only
  repeat' split
  all_goals exact ⟨rfl, rfl, rfl, rfl, rfl, rfl⟩

/-- The whole chain loop preserves those same executor fields. -/
theorem chainRun_fields {α : Type} (procOf : String → α → ProcessingResult α)
    (detCount : α → Nat) :
    ∀ (l : List String) (cs : ChainState α),
    (chainRun procOf detCount l cs).exec.status = cs.exec.status ∧
    (chainRun procOf detCount l cs).exec.stop_event = cs.exec.stop_event ∧
    (chainRun procOf detCount l cs).exec.pause_event = cs.exec.pause_event ∧
    (chainRun procOf detCount l cs).exec.nodes = cs.exec.nodes ∧
    (chainRun procOf detCount l cs).exec.connections = cs.exec.connections ∧
    (chainRun procOf detCount l cs).exec.total_frames_processed =
      cs.exec.total_frames_processed := by
  intro l
  induction l with
  | nil => intro cs; exact ⟨rfl, rfl, rfl, rfl, rfl, rfl⟩
  | cons nid rest ih =>
    intro cs
    have h1 := chainStep_fields procOf detCount cs nid
    have h2 := ih (chainStep procOf detCount cs nid)
    exact ⟨h2.1.trans h1.1, h2.2.1.trans h1.2.1, h2.2.2.1.trans h1.2.2.1,
      h2.2.2.2.1.trans h1.2.2.2.1, h2.2.2.2.2.1.trans h1.2.2.2.2.1,
      h2.2.2.2.2.2.trans h1.2.2.2.2.2⟩

/-- One chain-loop body appends at most one log entry and bumps the
error counter exactly on a failed invocation. -/
theorem chainStep_invoked {α : Type} (procOf : String → α → ProcessingResult α)
    (detCount : α → Nat) (cs : ChainState α) (nodeId : String) :
    ∃ t, (chainStep procOf detCount cs nodeId).invoked = cs.invoked ++ t ∧
      (chainStep procOf detCount cs nodeId).exec.errors_count =
        cs.exec.errors_count + (t.filter (fun pr => pr.2 = false)).length := by
  unfold chainStep
  dsimp only
  repeat' split
  all_goals try (refine ⟨[], (List.append_nil _).symm, ?_⟩; simp)
  all_goals try (refine ⟨[(nodeId, false)], rfl, ?_⟩; simp)
  all_goals (refine ⟨[(nodeId, true)], rfl, ?_⟩; simp)

/-- The chain loop only appends to the log, and the error counter grows
by exactly the number of failed entries appended. -/
theorem chainRun_invoked {α : Type} (procOf : String → α → ProcessingResult α)
    (detCount : α → Nat) :
    ∀ (l : List String) (cs : ChainState α),
    ∃ t, (chainRun procOf detCount l cs).invoked = cs.invoked ++ t ∧
      (chainRun procOf detCount l cs).exec.errors_count =
        cs.exec.errors_count + (t.filter (fun pr => pr.2 = false)).length := by
  intro l
  induction l with
  | nil => intro cs; exact ⟨[], (List.append_nil _).symm, rfl⟩
  | cons nid rest ih =>
    intro cs
    obtain ⟨t1, ht1, he1⟩ := chainStep_invoked procOf detCount cs nid
    obtain ⟨t2, ht2, he2⟩ := ih (chainStep procOf detCount cs nid)
    refine ⟨t1 ++ t2, ?_, ?_⟩
    · show (chainRun procOf detCount rest (chainStep procOf detCount cs nid)).invoked = _
      rw [ht2, ht1, List.append_assoc]
    · show (chainRun procOf detCount rest
        (chainStep procOf detCount cs nid)).exec.errors_count = _
      rw [he2, he1, List.filter_append, List.length_append, Nat.add_assoc]

/-- Membership plus distinct keys determines the lookup result. -/
theorem alistLookup_of_mem_nodup {β : Type} :
    ∀ (l : List (String × β)) (k : String) (v : β),
      (k, v) ∈ l → (l.map Prod.fst).Nodup → alistLookup l k = some v := by
  intro l
  induction l with
  | nil =>
    intro k v hm
    simp at hm
  | cons p rest ih =>
    intro k v hm hnd
    obtain ⟨k', v'⟩ := p
    simp only [List.map_cons, List.nodup_cons] at hnd
    rcases List.mem_cons.mp hm with hh | ht
    · rw [Prod.mk.injEq] at hh
      obtain ⟨rfl, rfl⟩ := hh
      simp [alistLookup]
    · by_cases hk : k' = k
      · subst hk
        exact absurd (List.mem_map.mpr ⟨(k', v), ht, rfl⟩) hnd.1
      · simp only [alistLookup, if_neg hk]
        exact ih k v ht hnd.2

/-- Writing one key leaves every other lookup unchanged. -/
theorem alistLookup_set_ne {β : Type} :
    ∀ (l : List (String × β)) (k k' : String) (v : β), k ≠ k' →
      alistLookup (alistSet l k v) k' = alistLookup l k' := by
  intro l
  induction l with
  | nil =>
    intro k k' v hne
    simp only [alistSet]
    simp only [alistLookup, if_neg hne]
  | cons p rest ih =>
    intro k k' v hne
    obtain ⟨k0, v0⟩ := p
    by_cases hk : k0 = k
    · subst hk
      simp only [alistSet, if_pos rfl]
      have : ¬ (k0 = k') := fun h => hne (h ▸ rfl)
      simp [alistLookup, this]
    · simp only [alistSet, if_neg hk]
      by_cases hk' : k0 = k'
      · simp [alistLookup, hk']
      · simp [alistLookup, hk', ih k k' v hne]

/-- A chain-loop body never overwrites the output-map entry of an Input
node: only non-input nodes are processed and keys are unique. -/
theorem chainStep_outputs_input {α : Type} (procOf : String → α → ProcessingResult α)
    (detCount : α → Nat) (cs : ChainState α) (nodeId : String)
    (i : String) (icls : NodeClass)
    (hnd : (cs.exec.nodes.map Prod.fst).Nodup)
    (hi : (i, icls) ∈ cs.exec.nodes) (hii : icls.isInput = true) :
    alistLookup (chainStep procOf detCount cs nodeId).outputs i =
      alistLookup cs.outputs i := by
  unfold chainStep
  dsimp only
  split
  · rfl
  · rename_i cls hcls
    split
    · rfl
    · rename_i hnin
      split
      · rfl
      · rename_i d hd
        split
        · have hne : nodeId ≠ i := by
            intro he
            subst he
            rw [alistLookup_of_mem_nodup cs.exec.nodes nodeId icls hi hnd] at hcls
            cases hcls
            exact hnin hii
          exact alistLookup_set_ne cs.outputs nodeId i _ hne
        · rfl

/-- Membership in the order accumulator. -/
theorem mem_processingOrderGo :
    ∀ (l : List (String × NodeClass)) (ins procs anas : List String) (x : String),
      (x ∈ processingOrderGo l ins procs anas ↔
        x ∈ ins ∨ x ∈ procs ∨ x ∈ anas ∨ x ∈ l.map Prod.fst) := by
  intro l
  induction l with
  | nil =>
    intro ins procs anas x
    simp [processingOrderGo]
  | cons p rest ih =>
    intro ins procs anas x
    obtain ⟨nid, cls⟩ := p
    by_cases h1 : cls.isInput
    · simp only [processingOrderGo, if_pos h1]
      rw [ih]
      simp [List.mem_append]
      tauto
    · by_cases h2 : nameHasProcessing cls.name
      · simp only [processingOrderGo, if_neg h1, if_pos h2]
        rw [ih]
        simp [List.mem_append]
        tauto
      · simp only [processingOrderGo, if_neg h1, if_neg h2]
        rw [ih]
        simp [List.mem_append]
        tauto

/-- The processing order enumerates exactly the node-map keys. -/
theorem mem_getProcessingOrder (nodes : List (String × NodeClass)) (x : String) :
    x ∈ getProcessingOrder nodes ↔ x ∈ nodes.map Prod.fst := by
  rw [getProcessingOrder, mem_processingOrderGo]
  simp

/-- The chain loop over a concatenation is the composition of the loops. -/
theorem chainRun_append {α : Type} (procOf : String → α → ProcessingResult α)
    (detCount : α → Nat) :
    ∀ (l1 l2 : List String) (cs : ChainState α),
      chainRun procOf detCount (l1 ++ l2) cs =
        chainRun procOf detCount l2 (chainRun procOf detCount l1 cs) := by
  intro l1
  induction l1 with
  | nil => intro l2 cs; rfl
  | cons nid rest ih =>
    intro l2 cs
    exact ih l2 (chainStep procOf detCount cs nid)

/-- A known non-input node with available truthy input is invoked by the
chain body and logged with the success flag of its result. -/
theorem chainStep_invokes_node {α : Type} (procOf : String → α → ProcessingResult α)
    (detCount : α → Nat) (cs : ChainState α) (n : String) (ncls : NodeClass) (d : α)
    (hlookn : alistLookup cs.exec.nodes n = some ncls)
    (hni : ncls.isInput = false)
    (hinp : getNodeInputData cs.exec.connections n cs.outputs = some d) :
    (chainStep procOf detCount cs n).invoked =
      cs.invoked ++ [(n, (procOf n d).success)] := by
  unfold chainStep
  rw [hlookn]
  dsimp only
  rw [if_neg (by simp [hni])]
  rw [hinp]
  dsimp only
  split
  · rename_i hsucc
    rw [hsucc]
  · rename_i hfalse
    have : (procOf n d).success = false := by
      revert hfalse
      cases (procOf n d).success <;> simp
    rw [this]

/-- A non-input node whose first incoming edge reads an Input node with
available data is invoked on that data, regardless of what any other
node in the order returned before or after it. -/
theorem chainRun_invokes {α : Type} (procOf : String → α → ProcessingResult α)
    (detCount : α → Nat) (m i : String) (mcls icls : NodeClass) (c : EdgeCfg) (f : α)
    (hmni : mcls.isInput = false) (hcs : c.source_node_id = i)
    (hii : icls.isInput = true) :
    ∀ (l : List String) (cs : ChainState α),
      m ∈ l →
      (cs.exec.nodes.map Prod.fst).Nodup →
      (m, mcls) ∈ cs.exec.nodes →
      (i, icls) ∈ cs.exec.nodes →
      (cs.exec.connections.filter (fun cn => cn.target_node_id = m)).head? = some c →
      alistLookup cs.outputs i = some (some f) →
      (m, (procOf m f).success) ∈ (chainRun procOf detCount l cs).invoked := by
  intro l
  induction l with
  | nil =>
    intro cs hm
    simp at hm
  | cons nid rest ih =>
    intro cs hm hnd hmm him hc hlook
    by_cases hmn : nid = m
    · subst hmn
      -- this step invokes the node; later steps only extend the log
      have hstep : (chainStep procOf detCount cs nid).invoked =
          cs.invoked ++ [(nid, (procOf nid f).success)] := by
        have hlookm : alistLookup cs.exec.nodes nid = some mcls :=
          alistLookup_of_mem_nodup cs.exec.nodes nid mcls hmm hnd
        have hinp : getNodeInputData cs.exec.connections nid cs.outputs = some f := by
          unfold getNodeInputData
          rcases hfil : cs.exec.connections.filter
              (fun cn => cn.target_node_id = nid) with _ | ⟨c0, t⟩
          · rw [hfil] at hc
            cases hc
          · rw [hfil] at hc
            simp only [List.head?_cons, Option.some.injEq] at hc
            subst hc
            rw [hfil]
            simp only [findFirstSource]
            rw [hcs, hlook]
        unfold chainStep
        rw [hlookm]
        dsimp only
        rw [if_neg (by simp [hmni])]
        rw [hinp]
        dsimp only
        split
        · rename_i hsucc
          rw [hsucc]
        · rename_i hfalse
          have : (procOf nid f).success = false := by
            revert hfalse
            cases (procOf nid f).success <;> simp
          rw [this]
      obtain ⟨t2, ht2, _⟩ := chainRun_invoked procOf detCount rest
        (chainStep procOf detCount cs nid)
      show (nid, (procOf nid f).success) ∈ (chainRun procOf detCount rest
        (chainStep procOf detCount cs nid)).invoked
      rw [ht2, hstep]
      simp
    · have hrest : m ∈ rest := by
        rcases List.mem_cons.mp hm with h | h
        · exact absurd h.symm hmn
        · exact h
      have hfields := chainStep_fields procOf detCount cs nid
      apply ih (chainStep procOf detCount cs nid) hrest
      · rw [hfields.2.2.2.1]
        exact hnd
      · rw [hfields.2.2.2.1]
        exact hmm
      · rw [hfields.2.2.2.1]
        exact him
      · rw [hfields.2.2.2.2.1]
        exact hc
      · rw [chainStep_outputs_input procOf detCount cs nid i icls hnd him hii]
        exact hlook

/-- Processing one frame preserves status, control events and the frame
counter. -/
theorem processFrame_fields {α : Type} (frameOf : String → Option α)
    (procOf : String → α → ProcessingResult α) (detCount : α → Nat) (e : ExecState) :
    (processFrame frameOf procOf detCount e).1.status = e.status ∧
    (processFrame frameOf procOf detCount e).1.stop_event = e.stop_event ∧
    (processFrame frameOf procOf detCount e).1.pause_event = e.pause_event ∧
    (processFrame frameOf procOf detCount e).1.total_frames_processed =
      e.total_frames_processed := by
  unfold processFrame
  dsimp only
  split
  · exact ⟨rfl, rfl, rfl, rfl⟩
  · have h := chainRun_fields procOf detCount (getProcessingOrder e.nodes)
      { exec := e, outputs := collectInputData frameOf e.nodes, invoked := [],
        analyticsEvents := [] }
    exact ⟨h.1, h.2.1, h.2.2.1, h.2.2.2.2.2⟩

/-- One loop iteration preserves status and the control events. -/
theorem loopIteration_fields {α : Type} (frameOf : String → Option α)
    (procOf : String → α → ProcessingResult α) (detCount : α → Nat) (e : ExecState) :
    (loopIteration frameOf procOf detCount e).1.status = e.status ∧
    (loopIteration frameOf procOf detCount e).1.stop_event = e.stop_event ∧
    (loopIteration frameOf procOf detCount e).1.pause_event = e.pause_event := by
  unfold loopIteration
  dsimp only
  split
  · exact ⟨rfl, rfl, rfl⟩
  · have h := processFrame_fields frameOf procOf detCount e
    exact ⟨h.1, h.2.1, h.2.2.1⟩

/-- Every non-paused loop iteration increments the frame counter by
exactly one, whether or not any frame was available. -/
theorem loopIteration_frames {α : Type} (frameOf : String → Option α)
    (procOf : String → α → ProcessingResult α) (detCount : α → Nat) (e : ExecState)
    (hpause : e.pause_event = false) :
    (loopIteration frameOf procOf detCount e).1.total_frames_processed =
      e.total_frames_processed + 1 := by
  unfold loopIteration
  rw [if_neg (by simp [hpause])]
  dsimp only
  rw [(processFrame_fields frameOf procOf detCount e).2.2.2]

/-- Over a finite schedule the frame counter advances once per
iteration and one invocation log is produced per iteration. -/
theorem runLoop_counts {α : Type} (procOf : String → α → ProcessingResult α)
    (detCount : α → Nat) :
    ∀ (fs : List (String → Option α)) (e : ExecState),
      e.stop_event = false → e.pause_event = false →
      ((runLoop procOf detCount fs e).1.total_frames_processed =
        e.total_frames_processed + fs.length ∧
       (runLoop procOf detCount fs e).2.length = fs.length) := by
  intro fs
  induction fs with
  | nil =>
    intro e _ _
    exact ⟨rfl, rfl⟩
  | cons f rest ih =>
    intro e hstop hpause
    unfold runLoop
    rw [if_neg (by simp [hstop])]
    dsimp only
    have hfields := loopIteration_fields f procOf detCount e
    have hih := ih (loopIteration f procOf detCount e).1
      (hfields.2.1.trans hstop) (hfields.2.2.trans hpause)
    refine ⟨?_, by simp [hih.2]⟩
    rw [hih.1, loopIteration_frames f procOf detCount e hpause]
    simp [List.length_cons]
    omega

/-- When no Input node delivers a frame the input map of the tick is
empty. -/
theorem collectInputData_empty {α : Type} (frameOf : String → Option α)
    (nodes : List (String × NodeClass))
    (h : ∀ p ∈ nodes, p.2.isInput = true → frameOf p.1 = none) :
    collectInputData frameOf nodes = [] := by
  rw [collectInputData, List.filterMap_eq_nil_iff]
  intro p hp
  by_cases hin : p.2.isInput
  · rw [if_pos hin, h p hp hin]
    rfl
  · rw [if_neg hin]

/-- Claim C6 (amended): an iteration in which no Input node yields a
frame invokes no process() call and fires no frame callback, but
total_frames_processed is still incremented; over any schedule the
counter advances once per loop iteration, so it counts iterations, not
frames. -/
theorem skipped_tick_counts_iteration {α : Type} (frameOf : String → Option α)
    (procOf : String → α → ProcessingResult α) (detCount : α → Nat)
    (e : ExecState) (fs : List (String → Option α))
    (hpause : e.pause_event = false)
    (hnone : ∀ p ∈ e.nodes, p.2.isInput = true → frameOf p.1 = none)
    (hstop : e.stop_event = false) :
    loopIteration frameOf procOf detCount e =
      ({ e with total_frames_processed := e.total_frames_processed + 1 }, [], false) ∧
    (runLoop procOf detCount fs e).1.total_frames_processed =
      e.total_frames_processed + fs.length := by
  refine ⟨?_, (runLoop_counts procOf detCount fs e hstop hpause).1⟩
  unfold loopIteration
  rw [if_neg (by simp [hpause])]
  unfold processFrame
  rw [collectInputData_empty frameOf e.nodes hnone]
  rfl

/-- Witness for the amended C6 on a concrete running executor. -/
theorem skipped_tick_counts_iteration_witness :
    loopIteration noFrames procEx detTriv execEx =
      ({ execEx with total_frames_processed := execEx.total_frames_processed + 1 },
        [], false) ∧
    (runLoop procEx detTriv [noFrames, noFrames] execEx).1.total_frames_processed =
      execEx.total_frames_processed + 2 :=
  skipped_tick_counts_iteration noFrames procEx detTriv execEx [noFrames, noFrames]
    rfl (by decide) rfl

/-- Claim C2: in a tick where some nodes fail process(), the status is
unchanged, errors_count grows by exactly one per failing invocation,
any node fed directly by an Input node with available data is still
invoked on that data (failures of other nodes notwithstanding), every
remaining node of the order whose input is available at its turn is
invoked on that input, and subsequent ticks keep executing (one
invocation log per scheduled iteration). -/
theorem node_failure_isolation {α : Type} (procOf : String → α → ProcessingResult α)
    (detCount : α → Nat) (e : ExecState) (inputData : List (String × Option α))
    (m i : String) (mcls icls : NodeClass) (c : EdgeCfg) (f : α)
    (fs : List (String → Option α))
    (hnd : (e.nodes.map Prod.fst).Nodup)
    (hm : (m, mcls) ∈ e.nodes) (hmni : mcls.isInput = false)
    (hc : (e.connections.filter (fun cn => cn.target_node_id = m)).head? = some c)
    (hcs : c.source_node_id = i)
    (hi : (i, icls) ∈ e.nodes) (hii : icls.isInput = true)
    (hlook : alistLookup inputData i = some (some f))
    (hstop : e.stop_event = false) :
    (processNodeChain procOf detCount e inputData).exec.status = e.status ∧
    (processNodeChain procOf detCount e inputData).exec.errors_count =
      e.errors_count + ((processNodeChain procOf detCount e inputData).invoked.filter
        (fun pr => pr.2 = false)).length ∧
    (m, (procOf m f).success) ∈ (processNodeChain procOf detCount e inputData).invoked ∧
    (∀ (l1 : List String) (n : String) (l2 : List String) (ncls : NodeClass) (d : α),
      getProcessingOrder e.nodes = l1 ++ n :: l2 →
      alistLookup e.nodes n = some ncls → ncls.isInput = false →
      getNodeInputData e.connections n
        (chainRun procOf detCount l1
          { exec := e, outputs := inputData, invoked := [],
            analyticsEvents := [] }).outputs = some d →
      (n, (procOf n d).success) ∈
        (processNodeChain procOf detCount e inputData).invoked) ∧
    ((runLoop procOf detCount fs e).2).length = fs.length := by
  refine ⟨?_, ?_, ?_, ?_, ?_⟩
  · exact (chainRun_fields procOf detCount _ _).1
  · obtain ⟨t, ht, he⟩ := chainRun_invoked procOf detCount
      (getProcessingOrder e.nodes)
      { exec := e, outputs := inputData, invoked := [], analyticsEvents := [] }
    rw [processNodeChain, ht, he]
    simp
  · apply chainRun_invokes procOf detCount m i mcls icls c f hmni hcs hii
      (getProcessingOrder e.nodes)
      { exec := e, outputs := inputData, invoked := [], analyticsEvents := [] }
      ?_ hnd hm hi hc hlook
    rw [mem_getProcessingOrder]
    exact List.mem_map.mpr ⟨(m, mcls), hm, rfl⟩
  · intro l1 n l2 ncls d hord hlookn hni hinp
    have hfl := chainRun_fields procOf detCount l1
      { exec := e, outputs := inputData, invoked := [], analyticsEvents := [] }
    have hstep := chainStep_invokes_node procOf detCount
      (chainRun procOf detCount l1
        { exec := e, outputs := inputData, invoked := [], analyticsEvents := [] })
      n ncls d (by rw [hfl.2.2.2.1]; exact hlookn) hni
      (by rw [hfl.2.2.2.2.1]; exact hinp)
    obtain ⟨t2, ht2, _⟩ := chainRun_invoked procOf detCount l2
      (chainStep procOf detCount
        (chainRun procOf detCount l1
          { exec := e, outputs := inputData, invoked := [], analyticsEvents := [] }) n)
    rw [processNodeChain, hord, chainRun_append]
    show (n, (procOf n d).success) ∈ (chainRun procOf detCount l2
      (chainStep procOf detCount (chainRun procOf detCount l1
        { exec := e, outputs := inputData, invoked := [],
          analyticsEvents := [] }) n)).invoked
    rw [ht2, hstep]
    simp
  · -- length of the per-tick logs: one per scheduled iteration (the loop
    -- never stops on its own)
    have : ∀ (gs : List (String → Option α)) (e' : ExecState),
        e'.stop_event = false → ((runLoop procOf detCount gs e').2).length = gs.length := by
      intro gs
      induction gs with
      | nil => intro e' _; rfl
      | cons g grest ih =>
        intro e' hstop'
        unfold runLoop
        rw [if_neg (by simp [hstop'])]
        dsimp only
        have hfields := loopIteration_fields g procOf detCount e'
        simp [ih (loopIteration g procOf detCount e').1 (hfields.2.1.trans hstop')]
    exact this fs e hstop

/-- Witness for C2: the bad node fails, the good node still runs. -/
theorem node_failure_isolation_witness :
    (("good", FaceDetectionNode) ∈ execEx.nodes) ∧
    ((processNodeChain procEx detTriv execEx [("cam", some 5)]).exec.status =
      execEx.status ∧
    (processNodeChain procEx detTriv execEx [("cam", some 5)]).exec.errors_count =
      execEx.errors_count +
        ((processNodeChain procEx detTriv execEx [("cam", some 5)]).invoked.filter
          (fun pr => pr.2 = false)).length ∧
    ("good", (procEx "good" 5).success) ∈
      (processNodeChain procEx detTriv execEx [("cam", some 5)]).invoked ∧
    ("bad", (procEx "bad" 5).success) ∈
      (processNodeChain procEx detTriv execEx [("cam", some 5)]).invoked ∧
    ((runLoop procEx detTriv [noFrames] execEx).2).length = 1) := by
  have h := node_failure_isolation procEx detTriv execEx [("cam", some 5)]
    "good" "cam" FaceDetectionNode CameraInputNode ⟨"cam", "good"⟩ 5 [noFrames]
    (by decide) (by decide) rfl (by decide) rfl (by decide) rfl rfl rfl
  refine ⟨by decide, h.1, h.2.1, h.2.2.1, ?_, h.2.2.2.2⟩
  exact h.2.2.2.1 ["cam"] "bad" ["good"] YOLODetectionNode 5 (by decide) rfl rfl
    (by decide)

end VisionMark
